import Mathlib

/-
Verification development for the saa-mappings dependency-extraction scripts
(src/scripts/extract_pom_deps.py and src/scripts/extract_sbom_deps.py).

The Python code is shallowly embedded: strings are Lean strings manipulated
as lists of characters, Python dicts keyed by strings are association lists
whose keys stay unique (dict update replaces in place), Python sets are
duplicate-free lists, and the unbounded recursion of the transitive-
dependency walk is given an explicit fuel argument together with theorems
showing that a computable fuel bound makes the fuel irrelevant.

Character-level fidelity: Python's str.isdigit is true for the Unicode
superscript and subscript digits while int() rejects them.  The embedding
models characters over the fragment consisting of ASCII plus those
superscript and subscript digits, which is enough to exhibit that mismatch;
other Unicode numerals are outside the modelled fragment.
-/

/-- Characters Python's str.isdigit accepts but int() rejects, within the
modelled fragment: the superscript and subscript decimal digits. -/
def supersubDigits : List Char :=
  ['⁰', '¹', '²', '³', '⁴', '⁵', '⁶', '⁷', '⁸', '⁹',
   '₀', '₁', '₂', '₃', '₄', '₅', '₆', '₇', '₈', '₉']

/-- Model of Python's per-character isdigit test on the modelled fragment. -/
def pyCharIsDigit (c : Char) : Bool :=
  c.isDigit || supersubDigits.contains c

/-- Model of Python's str.isdigit: nonempty and every character a digit. -/
def pyStrIsDigit (s : List Char) : Bool :=
  !s.isEmpty && s.all pyCharIsDigit

/-- Decimal value of a list of ASCII digit characters. -/
def digitsToNat (s : List Char) : Nat :=
  s.foldl (fun n c => n * 10 + (c.toNat - '0'.toNat)) 0

/-- Model of Python's int() on the strings that reach it in this code:
strings of ASCII decimal digits parse, everything else raises (none).
In particular a superscript digit passes isdigit but fails here, exactly
as int('²') raises ValueError in Python. -/
def pyIntParse (s : List Char) : Option Nat :=
  if !s.isEmpty && s.all Char.isDigit then some (digitsToNat s) else none

/-- Model of str.split('.') : accumulator-style split on the dot character,
matching Python (empty string yields one empty segment). -/
def splitDotsAux : List Char → List Char → List (List Char)
  | [], cur => [cur.reverse]
  | c :: cs, cur =>
    if c = '.' then cur.reverse :: splitDotsAux cs []
    else splitDotsAux cs (c :: cur)

/-- Split a character list on dots, Python str.split('.') semantics. -/
def splitDots (s : List Char) : List (List Char) :=
  splitDotsAux s []

/-- Model of re.split(r'[-_]', v)[0]: the prefix before the first dash or
underscore (the whole string when neither occurs). -/
def stripAfterDash (s : List Char) : List Char :=
  s.takeWhile (fun c => c ≠ '-' && c ≠ '_')

/-- Python's string less-than: lexicographic on code points. -/
def pyLexLt : List Char → List Char → Bool
  | [], [] => false
  | [], _ :: _ => true
  | _ :: _, [] => false
  | a :: as, b :: bs =>
    if a < b then true else if b < a then false else pyLexLt as bs

/-- Model of Python's two-argument max on strings: the second operand only
when it is strictly greater in the lexicographic code-point order. -/
def pyMax (v1 v2 : String) : String :=
  if pyLexLt v1.toList v2.toList then v2 else v1

/-- Python str.startswith, computed on the character lists. -/
def pyStarts (s pre : String) : Bool :=
  pre.toList.isPrefixOf s.toList

/-- Whitespace characters removed by str.strip() (ASCII fragment). -/
def isPySpace (c : Char) : Bool :=
  c = ' ' || c = '\t' || c = '\n' || c = '\r' || c.toNat == 11 || c.toNat == 12

/-- Model of str.strip(). -/
def pyStrip (s : String) : String :=
  String.mk (((s.toList.dropWhile isPySpace).reverse.dropWhile isPySpace).reverse)

/-- Model of int() applied to a whole version segment in
normalize_java_version: surrounding whitespace is tolerated by int(),
signs are outside the modelled fragment. -/
def pyIntStr (s : String) : Option Nat :=
  pyIntParse (pyStrip s).toList

/-- Membership test used for Python's `x in somelist` over strings. -/
def strMem (x : String) (l : List String) : Bool :=
  l.contains x

/- ===== Version utilities (both scripts define these identically for the
   inputs the claims concern) ===== -/

/-- Source normalize_java_version: empty input is 0, the legacy "1.x" form
maps to x, otherwise the leading run of decimal digits, else 0. -/
def normalize_java_version (s : String) : Nat :=
  if s.toList.isEmpty then 0
  else
    let t := pyStrip s
    if pyStarts t "1." then
      match (splitDots t.toList).get? 1 with
      | some seg => (pyIntParse (pyStrip (String.mk seg)).toList).getD 0
      | none => 0
    else
      let ds := t.toList.takeWhile Char.isDigit
      if ds.isEmpty then 0 else digitsToNat ds

/-- Source version_to_x: a version with three or more dot segments is
truncated to "major.minor.x"; anything shorter passes through.  (The SBOM
script's extra empty-string guard is behaviourally redundant: the empty
string has one segment and passes through on this path too.) -/
def version_to_x (s : String) : String :=
  let parts := splitDots s.toList
  if parts.length ≥ 3 then
    String.mk ((parts.getD 0 []) ++ '.' :: (parts.getD 1 []) ++ ['.', 'x'])
  else s

/-- The left-to-right evaluation of the [int(x) for x in ...] comprehension:
the whole list, or none as soon as one element raises. -/
def intsOf : List (List Char) → Option (List Nat)
  | [] => some []
  | x :: xs =>
    match pyIntParse x, intsOf xs with
    | some y, some ys => some (y :: ys)
    | _, _ => none

/-- The numeric-segment parse of compare_versions: strip the suffix after
the first dash or underscore, split on dots, keep the isdigit segments,
int() each of them.  none models a ValueError escaping to the except. -/
def verSegments (v : String) : Option (List Nat) :=
  intsOf ((splitDots (stripAfterDash v.toList)).filter pyStrIsDigit)

/-- Pad a segment list with zeros up to the given length. -/
def padTo (n : Nat) (xs : List Nat) : List Nat :=
  xs ++ List.replicate (n - xs.length) 0

/-- The comparison loop of compare_versions over the padded segment lists. -/
def cmpLoop : List Nat → List Nat → String → String → String
  | a :: as, b :: bs, v1, v2 =>
    if b < a then v1 else if a < b then v2 else cmpLoop as bs v1 v2
  | _, _, v1, _ => v1

/-- The body of compare_versions up to the except handler: some result on
the numeric path, none when a segment parse raises. -/
def compareCore (v1 v2 : String) : Option String :=
  match verSegments v1, verSegments v2 with
  | some p1, some p2 =>
    let n := max p1.length p2.length
    some (cmpLoop (padTo n p1) (padTo n p2) v1 v2)
  | _, _ => none

/-- Source compare_versions: the numeric comparison, falling back to the
lexicographic maximum of the original strings when parsing raises. -/
def compare_versions (v1 v2 : String) : String :=
  match compareCore v1 v2 with
  | some r => r
  | none => pyMax v1 v2

/-- Modelled from the spec (section 4.1): higherVersion written from the
spec's words — strip the trailing suffix, split the remaining digit-only
segments on dots, pad the shorter with zeros, return the operand holding
the first strictly greater segment, the first operand on a tie, and the
lexicographic maximum of the originals on any parse failure. -/
def higherVersionSpec (a b : String) : String :=
  match verSegments a, verSegments b with
  | some xs, some ys =>
    let n := max xs.length ys.length
    match ((padTo n xs).zip (padTo n ys)).find? (fun p => p.1 ≠ p.2) with
    | some p => if p.1 > p.2 then a else b
    | none => a
  | _, _ => if pyLexLt a.toList b.toList then b else a

/- ===== Catalog matcher ===== -/

/-- An entry's artifact pattern as in the Python table: none is match-any,
a string starting with a caret is a regex, anything else is an exact match. -/
def regexAltMatch (alt : String) (s : String) : Bool :=
  let body := if pyStarts alt "^" then String.mk (alt.toList.drop 1) else alt
  if body.toList.reverse.take 2 = ['*', '.'] then
    pyStarts s (String.mk (body.toList.dropLast.dropLast))
  else if body.toList.reverse.take 1 = ['$'] then
    s = String.mk body.toList.dropLast
  else pyStarts s body

/-- Model of re.match(pattern, s) for the anchored alternation patterns in
the static dependency table (alternatives of the shapes "^lit$", "^lit.*"
and "^lit"; the literals contain no other regex metacharacters). -/
def regexMatchStart (pat : String) (s : String) : Bool :=
  (pat.splitOn "|").any (fun alt => regexAltMatch alt s)

/-- One dependency-table check: group equality plus the artifact selector
dispatch from the source (None / regex when the pattern starts with a
caret / exact string otherwise). -/
def entryMatches (group artifact : String) (target : String)
    (pat : Option String) : Bool :=
  group = target &&
    (match pat with
     | none => true
     | some p => if pyStarts p "^" then regexMatchStart p artifact else artifact = p)

/-- The dep_mappings table of extract_pom_deps.py, in iteration order. -/
def dep_mappings_pom : List (String × String × Option String) :=
  [("spring-boot", "org.springframework.boot", none),
   ("spring-data-commons", "org.springframework.data", some "spring-data-commons"),
   ("spring-data-jpa", "org.springframework.data", some "spring-data-jpa"),
   ("spring-data-mongodb", "org.springframework.data", some "spring-data-mongodb"),
   ("spring-data-redis", "org.springframework.data", some "spring-data-redis"),
   ("spring-data-relational", "org.springframework.data", some "spring-data-relational"),
   ("spring-framework", "org.springframework",
     some "^spring-core$|^spring-context$|^spring-beans$|^spring-web$"),
   ("spring-security", "org.springframework.security", some "^spring-security-.*"),
   ("spring-integration", "org.springframework.integration", some "^spring-integration-.*"),
   ("spring-kafka", "org.springframework.kafka", some "spring-kafka"),
   ("spring-retry", "org.springframework.retry", some "spring-retry"),
   ("spring-cloud-azure", "com.azure.spring", none),
   ("spring-cloud-commons", "org.springframework.cloud", some "spring-cloud-commons"),
   ("spring-cloud-function", "org.springframework.cloud", some "^spring-cloud-function-.*"),
   ("spring-cloud-stream", "org.springframework.cloud", some "spring-cloud-stream"),
   ("spring-cloud-bus", "org.springframework.cloud", some "spring-cloud-bus"),
   ("spring-cloud-sleuth", "org.springframework.cloud", some "spring-cloud-sleuth"),
   ("azure-sdk-for-java", "com.azure", some "azure-core"),
   ("micrometer", "io.micrometer", some "micrometer-core"),
   ("reactor", "io.projectreactor", some "reactor-core"),
   ("reactor-netty", "io.projectreactor.netty", some "^reactor-netty.*"),
   ("jedis", "redis.clients", some "jedis")]

/-- The dep_mappings table of extract_sbom_deps.py: the pom table plus the
azure-core-http-netty entry, in iteration order. -/
def dep_mappings_sbom : List (String × String × Option String) :=
  [("spring-boot", "org.springframework.boot", none),
   ("spring-data-commons", "org.springframework.data", some "spring-data-commons"),
   ("spring-data-jpa", "org.springframework.data", some "spring-data-jpa"),
   ("spring-data-mongodb", "org.springframework.data", some "spring-data-mongodb"),
   ("spring-data-redis", "org.springframework.data", some "spring-data-redis"),
   ("spring-data-relational", "org.springframework.data", some "spring-data-relational"),
   ("spring-framework", "org.springframework",
     some "^spring-core$|^spring-context$|^spring-beans$|^spring-web$"),
   ("spring-security", "org.springframework.security", some "^spring-security-.*"),
   ("spring-integration", "org.springframework.integration", some "^spring-integration-.*"),
   ("spring-kafka", "org.springframework.kafka", some "spring-kafka"),
   ("spring-retry", "org.springframework.retry", some "spring-retry"),
   ("spring-cloud-azure", "com.azure.spring", none),
   ("spring-cloud-commons", "org.springframework.cloud", some "spring-cloud-commons"),
   ("spring-cloud-function", "org.springframework.cloud", some "^spring-cloud-function-.*"),
   ("spring-cloud-stream", "org.springframework.cloud", some "spring-cloud-stream"),
   ("spring-cloud-bus", "org.springframework.cloud", some "spring-cloud-bus"),
   ("spring-cloud-sleuth", "org.springframework.cloud", some "spring-cloud-sleuth"),
   ("azure-sdk-for-java", "com.azure", some "azure-core"),
   ("azure-core-http-netty", "com.azure", some "azure-core-http-netty"),
   ("micrometer", "io.micrometer", some "micrometer-core"),
   ("reactor", "io.projectreactor", some "reactor-core"),
   ("reactor-netty", "io.projectreactor.netty", some "^reactor-netty.*"),
   ("jedis", "redis.clients", some "jedis")]

/-- Classify a (group, artifact) pair against a dependency table: the first
entry whose group matches and whose artifact selector matches wins; an
entry with the right group but a failing selector does not stop the scan. -/
def classify (mappings : List (String × String × Option String))
    (group artifact : String) : Option String :=
  match mappings with
  | [] => none
  | (fam, target, pat) :: rest =>
    if entryMatches group artifact target pat then some fam
    else classify rest group artifact

/- ===== Association lists modelling Python dicts ===== -/

/-- dict lookup: value at the key, none when absent. -/
def dictGet (m : List (String × String)) (k : String) : Option String :=
  match m with
  | [] => none
  | (k', v) :: rest => if k' = k then some v else dictGet rest k

/-- dict assignment: replace in place when the key exists (preserving
insertion order as Python dicts do), else append. -/
def dictSet (m : List (String × String)) (k v : String) :
    List (String × String) :=
  match m with
  | [] => [(k, v)]
  | (k', v') :: rest =>
    if k' = k then (k, v) :: rest else (k', v') :: dictSet rest k v

/-- The keys of an association list. -/
def dictKeys (m : List (String × String)) : List String :=
  m.map (fun p => p.1)

/- ===== Build-descriptor (effective-POM) extractor model =====
   The XML parse boundary is modelled structurally: a dependency element is
   the quadruple of its groupId / artifactId / version / scope children
   (none meaning the child element is absent, the string being its text),
   and a module is its resolved property- and plugin-level Java version
   together with its dependency elements.  Everything after that boundary
   follows src/scripts/extract_pom_deps.py. -/

/-- One `<dependency>` element of an effective POM. -/
structure DepEntry where
  group : Option String
  artifact : Option String
  version : Option String
  scope : Option String
deriving DecidableEq

/-- The per-dependency step of extract_deps_from_xml: skip when groupId or
version is absent, skip when a declared scope is not compile (absent scope
defaults to compile), classify the stripped texts against the table, and on
a match assign the version into the module's map — a plain dict assignment,
overwriting whatever version was recorded for that family before. -/
def processDep (deps : List (String × String)) (e : DepEntry) :
    List (String × String) :=
  match e.group, e.version with
  | some g, some v =>
    if (e.scope.getD "compile") ≠ "compile" then deps
    else
      match classify dep_mappings_pom (pyStrip g) (pyStrip (e.artifact.getD "")) with
      | some fam => dictSet deps fam (pyStrip v)
      | none => deps
  | _, _ => deps

/-- The dependency loop of extract_deps_from_xml over one module's
dependency elements.  (The namespace-aware and namespace-naive passes of
the source visit the same element list; re-running the loop on the same
list leaves the last-assignment-wins map unchanged, so one pass is the
faithful denotation.) -/
def extract_deps_fold (entries : List DepEntry) : List (String × String) :=
  entries.foldl processDep []

/-- The spring-boot heuristic of the pom-side infer_java_version_from_deps. -/
def bootHeurPom (deps : List (String × String)) : Option String :=
  match dictGet deps "spring-boot" with
  | none => none
  | some v =>
    if pyStarts v "3." then some "17"
    else if pyStarts v "2.7" then some "11"
    else if pyStarts v "2." then some "8"
    else none

/-- The spring-framework heuristic of the pom-side infer. -/
def fwHeurPom (deps : List (String × String)) : Option String :=
  match dictGet deps "spring-framework" with
  | none => none
  | some v =>
    if pyStarts v "6." then some "17"
    else if pyStarts v "5.3" then some "8"
    else if pyStarts v "5." then some "8"
    else none

/-- The reactor heuristic of the pom-side infer. -/
def reactorHeurPom (deps : List (String × String)) : Option String :=
  match dictGet deps "reactor" with
  | none => none
  | some v =>
    if pyStarts v "3.5" || pyStarts v "3.6" then some "17"
    else if pyStarts v "3." then some "8"
    else none

/-- Source infer_java_version_from_deps (extract_pom_deps.py): empty map
gives none; otherwise the boot, framework and reactor heuristics in order,
each falling through when its family is absent or no prefix matches; none
when nothing fires. -/
def infer_java_version_from_deps_pom (deps : List (String × String)) :
    Option String :=
  if deps.isEmpty then none
  else
    match bootHeurPom deps with
    | some r => some r
    | none =>
      match fwHeurPom deps with
      | some r => some r
      | none => reactorHeurPom deps

/-- One `<project>` section after XML parsing: the Java version found in
properties (strategy 1), the one found in the maven-compiler-plugin block
(strategy 2), and the dependency elements. -/
structure ModuleInput where
  propsJava : Option String
  pluginJava : Option String
  depEntries : List DepEntry
deriving DecidableEq

/-- The truthiness guard Python applies to the externally supplied fallback
(`if fallback_java_version:`): an empty string does not count. -/
def truthyOpt (o : Option String) : Option String :=
  match o with
  | some s => if s.toList.isEmpty then none else some s
  | none => none

/-- Model of extract_deps_from_xml on one successfully parsed section:
properties first, then the compiler plugin, then inference from this
module's matched dependencies, then the external fallback. -/
def extractModule (m : ModuleInput) (fallback : Option String) :
    Option String × List (String × String) :=
  let deps := extract_deps_fold m.depEntries
  let jv :=
    match m.propsJava with
    | some j => some j
    | none => m.pluginJava
  let jv :=
    match jv with
    | some j => some j
    | none => if deps.isEmpty then none else infer_java_version_from_deps_pom deps
  let jv :=
    match jv with
    | some j => some j
    | none => truthyOpt fallback
  (jv, deps)

/-- Model of extract_deps_from_xml including its ParseError handler: a
section that fails to parse yields no Java version and no dependencies
(the external fallback is applied inside the try, so it is not reached). -/
def extract_deps_from_xml_model (section? : Option ModuleInput)
    (fallback : Option String) : Option String × List (String × String) :=
  match section? with
  | none => (none, [])
  | some m => extractModule m fallback

/-- The highest-normalized-token loop of extract_compile_deps_multi_module:
running maximum starts at 0 and is replaced only on strictly greater. -/
def selectJavaGo : List String → Nat → Option String → Option String
  | [], _, best => best
  | v :: rest, hn, best =>
    let n := normalize_java_version v
    if hn < n then selectJavaGo rest n (some v) else selectJavaGo rest hn best

/-- Pick the Java version among the collected per-module tokens. -/
def selectJava (tokens : List String) : Option String :=
  selectJavaGo tokens 0 none

/-- The per-module dependency merge of extract_compile_deps_multi_module:
an already-present family is combined with compare_versions, a new family
is inserted. -/
def mergeOne (acc m : List (String × String)) : List (String × String) :=
  m.foldl
    (fun acc p =>
      match dictGet acc p.1 with
      | some old => dictSet acc p.1 (compare_versions old p.2)
      | none => dictSet acc p.1 p.2)
    acc

/-- Apply a function to every value of an association list. -/
def mapValues (f : String → String) (m : List (String × String)) :
    List (String × String) :=
  m.map (fun p => (p.1, f p.2))

/-- Model of extract_compile_deps_multi_module after segment extraction:
zero sections is the early empty return; otherwise each section is
extracted, dependency maps are merged with compare_versions, the Java
tokens (truthy ones only) are reduced by the highest-normalized loop, with
inference from the merged map and then the truthy external fallback as
fallbacks, and finally every version is canonicalized by version_to_x. -/
def extract_compile_deps_multi_module
    (sections : List (Option ModuleInput)) (fallback : Option String) :
    Option String × List (String × String) :=
  if sections.isEmpty then (none, [])
  else
    let results := sections.map (fun s => extract_deps_from_xml_model s fallback)
    let all_deps := results.foldl (fun acc r => mergeOne acc r.2) []
    let tokens := results.filterMap (fun r => truthyOpt r.1)
    let jv := selectJava tokens
    let jv :=
      match jv with
      | some j => some j
      | none =>
        if all_deps.isEmpty then none
        else infer_java_version_from_deps_pom all_deps
    let jv :=
      match jv with
      | some j => some j
      | none => truthyOpt fallback
    (jv, mapValues version_to_x all_deps)

/- ===== SBOM extractor model (extract_sbom_deps.py) ===== -/

/-- One CycloneDX component after parsing: type, group, name, version,
scope and bom-ref, each absent or its text. -/
structure SbomComponent where
  ctype : Option String
  group : Option String
  name : Option String
  version : Option String
  scope : Option String
  bomRef : Option String
deriving DecidableEq

/-- The spring-boot heuristic of the SBOM-side infer (finer version bands
than the pom side, same outcomes for 3.x). -/
def bootHeurSbom (deps : List (String × String)) : Option String :=
  match dictGet deps "spring-boot" with
  | none => none
  | some v =>
    if pyStarts v "3.2" || pyStarts v "3.3" then some "17"
    else if pyStarts v "3." then some "17"
    else if pyStarts v "2.7" then some "11"
    else if pyStarts v "2.5" || pyStarts v "2.6" then some "11"
    else if pyStarts v "2." then some "8"
    else none

/-- The spring-framework heuristic of the SBOM-side infer. -/
def fwHeurSbom (deps : List (String × String)) : Option String :=
  match dictGet deps "spring-framework" with
  | none => none
  | some v =>
    if pyStarts v "6.1" then some "17"
    else if pyStarts v "6." then some "17"
    else if pyStarts v "5.3" then some "11"
    else if pyStarts v "5." then some "8"
    else none

/-- The Azure-SDK minor-version heuristic of the SBOM-side infer.  The
isdigit/int mismatch makes the int() calls able to raise, and this function
has no handler, so the error escapes (modelled by Except.error). -/
def azureHeur (deps : List (String × String)) : Except Unit (Option String) :=
  if (dictGet deps "azure-sdk-for-java").isSome
      || (dictGet deps "azure-core-http-netty").isSome then
    let az := (dictGet deps "azure-sdk-for-java").getD
      ((dictGet deps "azure-core-http-netty").getD "")
    if az.toList.isEmpty then Except.ok none
    else
      let parts := splitDots az.toList
      match parts.head? with
      | none => Except.ok none
      | some p0 =>
        if pyStrIsDigit p0 then
          match pyIntParse p0 with
          | none => Except.error ()
          | some major =>
            match parts.get? 1 with
            | some p1 =>
              if 1 ≤ major && pyStrIsDigit p1 then
                match pyIntParse p1 with
                | none => Except.error ()
                | some minor =>
                  if 40 ≤ minor then Except.ok (some "11") else Except.ok none
              else Except.ok none
            | none => Except.ok none
        else Except.ok none
  else Except.ok none

/-- The reactor heuristic of the SBOM-side infer. -/
def reactorHeurSbom (deps : List (String × String)) : Option String :=
  match dictGet deps "reactor" with
  | none => none
  | some v =>
    if pyStarts v "3.6" then some "17"
    else if pyStarts v "3.5" then some "11"
    else if pyStarts v "3." then some "8"
    else none

/-- Source infer_java_version_from_deps (extract_sbom_deps.py): empty map
gives none; then boot, framework, azure and reactor heuristics in order;
when nothing fires the fixed default "11" is returned. -/
def infer_java_version_from_deps_sbom (deps : List (String × String)) :
    Except Unit (Option String) :=
  if deps.isEmpty then Except.ok none
  else
    match bootHeurSbom deps with
    | some r => Except.ok (some r)
    | none =>
      match fwHeurSbom deps with
      | some r => Except.ok (some r)
      | none =>
        match azureHeur deps with
        | Except.error e => Except.error e
        | Except.ok (some r) => Except.ok (some r)
        | Except.ok none =>
          match reactorHeurSbom deps with
          | some r => Except.ok (some r)
          | none => Except.ok (some "11")

/-- The component filter both SBOM paths apply before catalog matching:
type is library and the scope (defaulting to "required") is neither
excluded nor optional. -/
def includableSbom (c : SbomComponent) : Bool :=
  c.ctype = some "library" &&
    !(strMem (c.scope.getD "required") ["excluded", "optional"])

/-- The per-component step of the JSON SBOM component loop: skip non-library
types, skip excluded or optional scopes, classify the (defaulted) group and
name, and fold a match into the document map with compare_versions against
any previous version for the family. -/
def processCompJson (m : List (String × String)) (c : SbomComponent) :
    List (String × String) :=
  if c.ctype ≠ some "library" then m
  else if strMem (c.scope.getD "required") ["excluded", "optional"] then m
  else
    match classify dep_mappings_sbom (c.group.getD "") (c.name.getD "") with
    | some fam =>
      match dictGet m fam with
      | some old => dictSet m fam (compare_versions old (c.version.getD ""))
      | none => dictSet m fam (c.version.getD "")
    | none => m

/-- The matched-dependency map extract_deps_from_json_sbom builds from the
component list (the transitive walk does not feed back into this map). -/
def json_matched_deps (comps : List SbomComponent) : List (String × String) :=
  comps.foldl processCompJson []

/-- The per-component step of the XML SBOM component loop: the findall
filter keeps only type="library" components, a component missing its group
or name element is skipped, then the same scope filter and matching fold. -/
def processCompXml (m : List (String × String)) (c : SbomComponent) :
    List (String × String) :=
  if c.ctype ≠ some "library" then m
  else
    match c.group, c.name with
    | some g, some nm =>
      if strMem (c.scope.getD "required") ["excluded", "optional"] then m
      else
        match classify dep_mappings_sbom g nm with
        | some fam =>
          match dictGet m fam with
          | some old => dictSet m fam (compare_versions old (c.version.getD ""))
          | none => dictSet m fam (c.version.getD "")
        | none => m
    | _, _ => m

/-- The matched-dependency map extract_deps_from_xml_sbom builds. -/
def xml_matched_deps (comps : List SbomComponent) : List (String × String) :=
  comps.foldl processCompXml []

/- ===== Artifact-graph walker (_collect_transitive_deps) ===== -/

/-- Lookup in the dependency adjacency map (dict keyed by component ref). -/
def adjLookup (adj : List (String × List String)) (r : String) :
    Option (List String) :=
  match adj with
  | [] => none
  | (k, cs) :: rest => if k = r then some cs else adjLookup rest r

/-- Python set.add on the duplicate-free list modelling the result set. -/
def insertNew (l : List String) (x : String) : List String :=
  if x ∈ l then l else x :: l

/-- The loop body of _collect_transitive_deps over the children of one ref:
each child is added to the result set and then recursed into through the
supplied continuation (the recursive call at one less fuel). -/
def childLoop (rec : String → List String × List String → List String × List String) :
    List String → List String × List String → List String × List String
  | [], st => st
  | c :: cs, st => childLoop rec cs (rec c (insertNew st.1 c, st.2))

/-- Source _collect_transitive_deps with an explicit fuel argument standing
for the recursion depth: an already-visited ref returns at once, otherwise
the ref joins the visited set and, when present in the adjacency map, its
children are added to the result and recursed into.  A ref absent from the
map contributes no further expansion.  The state is (result, visited). -/
def collectStep :
    Nat → List (String × List String) → String →
    List String × List String → List String × List String
  | 0, _, _, st => st
  | fuel + 1, adj, ref, st =>
    if ref ∈ st.2 then st
    else
      let st1 := (st.1, ref :: st.2)
      match adjLookup adj ref with
      | none => st1
      | some children => childLoop (fun r s => collectStep fuel adj r s) children st1

/-- Every ref the walk can ever touch: the root plus the keys and children
of the adjacency map. -/
def refsList (adj : List (String × List String)) : List String :=
  adj.foldr (fun p acc => p.1 :: p.2 ++ acc) []

/-- The finite universe of refs for a given walk, as a finset. -/
def urefs (adj : List (String × List String)) (root : String) : Finset String :=
  (root :: refsList adj).toFinset

/-- A fuel bound sufficient for the walk to stabilize. -/
def collectBound (adj : List (String × List String)) (root : String) : Nat :=
  (urefs adj root).card + 1

/-- The walk as invoked by the extractors: empty result and visited sets,
returning the collected result set. -/
def collect_transitive_deps (adj : List (String × List String))
    (root : String) : List String :=
  (collectStep (collectBound adj root) adj root ([], [])).1

/-- One edge of the dependency graph: the child appears in the parent's
adjacency entry. -/
def AdjEdge (adj : List (String × List String)) (a b : String) : Prop :=
  ∃ cs, adjLookup adj a = some cs ∧ b ∈ cs

/-- Reachability along one or more edges. -/
def ReachPlus (adj : List (String × List String)) (a b : String) : Prop :=
  Relation.TransGen (AdjEdge adj) a b

/- ===== Failure semantics of the batch loops (claim C7) =====
   The file boundary is modelled by giving each input as the outcome of
   parsing its bytes.  The build-descriptor path and the XML SBOM path
   swallow parse failures; process_sbom_file performs json.load with no
   handler, so a JSON parse failure propagates (Except.error) out of the
   directory loop. -/

/-- A parsed SBOM document reduced to what the output record depends on:
the Java version found in metadata (properties or tool properties, with
the literal "null" already treated as absent) and the component list. -/
structure SbomDocModel where
  metaJava : Option String
  components : List SbomComponent
deriving DecidableEq

/-- The body of extract_deps_from_json_sbom: matching fold over the
components, then inference when metadata gave no Java version and some
family matched.  The inference step can raise (azure branch), and this
function has no handler, so that error propagates. -/
def json_extract (d : SbomDocModel) :
    Except Unit (Option String × List (String × String)) :=
  let matched := json_matched_deps d.components
  match d.metaJava with
  | some j => Except.ok (some j, matched)
  | none =>
    if matched.isEmpty then Except.ok (none, matched)
    else
      match infer_java_version_from_deps_sbom matched with
      | Except.error e => Except.error e
      | Except.ok jv => Except.ok (jv, matched)

/-- The body of extract_deps_from_xml_sbom without its handler. -/
def xml_extract_core (d : SbomDocModel) :
    Except Unit (Option String × List (String × String)) :=
  let matched := xml_matched_deps d.components
  match d.metaJava with
  | some j => Except.ok (some j, matched)
  | none =>
    if matched.isEmpty then Except.ok (none, matched)
    else
      match infer_java_version_from_deps_sbom matched with
      | Except.error e => Except.error e
      | Except.ok jv => Except.ok (jv, matched)

/-- extract_deps_from_xml_sbom with its catch-everything handler: any
error inside (XML parse failure or inference error) yields the empty
result. -/
def xml_extract (d? : Option SbomDocModel) :
    Option String × List (String × String) :=
  match d? with
  | none => (none, [])
  | some d =>
    match xml_extract_core d with
    | Except.error _ => (none, [])
    | Except.ok r => r

/-- One file of an SBOM directory, given as its format and parse outcome:
for a .json file the outcome of json.load, for a .xml file the outcome of
ET.parse as seen by the handler inside extract_deps_from_xml_sbom. -/
inductive SbomFileInput where
  | jsonFile (parsed : Except Unit SbomDocModel)
  | xmlFile (parsed : Option SbomDocModel)

/-- Model of process_sbom_file: json.load is executed with no surrounding
try, so a JSON parse error propagates to the caller; the XML path returns
whatever the handler inside the extractor produced. -/
def process_sbom_file_model (f : SbomFileInput) :
    Except Unit (Option String × List (String × String)) :=
  match f with
  | SbomFileInput.jsonFile (Except.error e) => Except.error e
  | SbomFileInput.jsonFile (Except.ok d) => json_extract d
  | SbomFileInput.xmlFile d? => Except.ok (xml_extract d?)

/-- Model of the process_sbom_directory loop: files are processed in order
with no per-file handler, so the first propagating error aborts the batch
and later files produce no output. -/
def processSbomBatch (files : List SbomFileInput) :
    Except Unit (List (Option String × List (String × String))) :=
  match files with
  | [] => Except.ok []
  | f :: rest =>
    match process_sbom_file_model f with
    | Except.error e => Except.error e
    | Except.ok r =>
      match processSbomBatch rest with
      | Except.error e => Except.error e
      | Except.ok rs => Except.ok (r :: rs)

/-- Model of the process_pom_directory loop: extract_compile_deps_multi_module
catches everything, so every file yields an output record and the batch
always runs to completion. -/
def processPomBatch (files : List (List (Option ModuleInput)))
    (fallback : Option String) :
    List (Option String × List (String × String)) :=
  files.map (fun sections => extract_compile_deps_multi_module sections fallback)
/- ===== Generic lemmas about the dict model ===== -/

theorem dictGet_dictSet (m : List (String × String)) (k v k' : String) :
    dictGet (dictSet m k v) k' = if k = k' then some v else dictGet m k' := by
  induction m with
  | nil => simp [dictSet, dictGet]
  | cons p rest ih =>
    by_cases h : p.1 = k
    · by_cases hk : k = k'
      · simp [dictSet, dictGet, h, hk]
      · simp [dictSet, dictGet, h, hk]
    · simp only [dictSet, dictGet, h, if_neg h]
      by_cases h' : p.1 = k'
      · have : ¬ k = k' := fun e => h (e ▸ h')
        simp [dictGet, h', this]
      · simp [dictGet, h', ih]

/- ===== compare_versions agrees with the spec's higherVersion ===== -/

theorem cmpLoop_find (as : List Nat) : ∀ (bs : List Nat) (v1 v2 : String),
    cmpLoop as bs v1 v2 =
      (match (as.zip bs).find? (fun p => p.1 ≠ p.2) with
       | some p => if p.1 > p.2 then v1 else v2
       | none => v1) := by
  induction as with
  | nil => intro bs v1 v2; cases bs <;> simp [cmpLoop]
  | cons a as ih =>
    intro bs v1 v2
    cases bs with
    | nil => simp [cmpLoop]
    | cons b bs =>
      by_cases hab : a = b
      · subst hab
        simpa [cmpLoop, List.find?] using ih bs v1 v2
      · rcases Nat.lt_or_ge a b with h | h
        · have h1 : ¬ b < a := Nat.not_lt.mpr (Nat.le_of_lt h)
          have h2 : ¬ a > b := Nat.not_lt.mpr (Nat.le_of_lt h)
          simp [cmpLoop, List.find?, hab, h, h1, h2]
        · have h' : b < a := Nat.lt_of_le_of_ne h (fun e => hab e.symm)
          simp [cmpLoop, List.find?, hab, h']

theorem cmpLoop_operand (as : List Nat) : ∀ (bs : List Nat) (v1 v2 : String),
    cmpLoop as bs v1 v2 = v1 ∨ cmpLoop as bs v1 v2 = v2 := by
  induction as with
  | nil => intro bs v1 v2; cases bs <;> simp [cmpLoop]
  | cons a as ih =>
    intro bs v1 v2
    cases bs with
    | nil => simp [cmpLoop]
    | cons b bs =>
      simp only [cmpLoop]
      split
      · exact Or.inl rfl
      · split
        · exact Or.inr rfl
        · exact ih bs v1 v2

theorem compare_versions_eq_spec (a b : String) :
    compare_versions a b = higherVersionSpec a b := by
  unfold compare_versions compareCore higherVersionSpec
  cases h1 : verSegments a with
  | none => cases h2 : verSegments b <;> simp [pyMax]
  | some p1 =>
    cases h2 : verSegments b with
    | none => simp [pyMax]
    | some p2 => simp [cmpLoop_find]

/- ===== Reachability of the except fallback (claim C10) ===== -/

theorem splitDotsAux_chars (l : List Char) : ∀ (cur seg : List Char),
    seg ∈ splitDotsAux l cur → ∀ c ∈ seg, c ∈ l ∨ c ∈ cur := by
  induction l with
  | nil =>
    intro cur seg hseg c hc
    simp only [splitDotsAux, List.mem_singleton] at hseg
    subst hseg
    exact Or.inr (List.mem_reverse.mp hc)
  | cons d l ih =>
    intro cur seg hseg c hc
    by_cases hd : d = '.'
    · simp only [splitDotsAux, hd, if_true, eq_self_iff_true, List.mem_cons] at hseg
      rcases hseg with hseg | hseg
      · subst hseg
        exact Or.inr (List.mem_reverse.mp hc)
      · rcases ih [] seg hseg c hc with h | h
        · exact Or.inl (List.mem_cons_of_mem _ h)
        · exact absurd h (List.not_mem_nil c)
    · simp only [splitDotsAux, hd, if_neg hd] at hseg
      rcases ih (d :: cur) seg hseg c hc with h | h
      · exact Or.inl (List.mem_cons_of_mem _ h)
      · rcases List.mem_cons.mp h with h | h
        · exact Or.inl (h ▸ List.mem_cons_self _ _)
        · exact Or.inr h

theorem splitDots_chars {l seg : List Char} (hseg : seg ∈ splitDots l) :
    ∀ c ∈ seg, c ∈ l := by
  intro c hc
  rcases splitDotsAux_chars l [] seg hseg c hc with h | h
  · exact h
  · exact absurd h (List.not_mem_nil c)

theorem supersub_not_ascii : ∀ c ∈ supersubDigits, ¬ c.toNat < 128 := by decide

theorem pyCharIsDigit_of_ascii {c : Char} (hc : c.toNat < 128)
    (hd : pyCharIsDigit c = true) : c.isDigit = true := by
  rcases Bool.or_eq_true_iff.mp hd with h | h
  · exact h
  · exact absurd hc (supersub_not_ascii c (List.mem_of_elem_eq_true h))

theorem pyIntParse_isSome_of_ascii {seg : List Char}
    (ha : ∀ c ∈ seg, c.toNat < 128) (hd : pyStrIsDigit seg = true) :
    (pyIntParse seg).isSome := by
  rcases Bool.and_eq_true_iff.mp hd with ⟨hne, hall⟩
  have hdig : seg.all Char.isDigit = true := by
    rw [List.all_eq_true] at hall ⊢
    intro c hc
    exact pyCharIsDigit_of_ascii (ha c hc) (hall c hc)
  simp [pyIntParse, hne, hdig]

theorem intsOf_isSome {segs : List (List Char)}
    (h : ∀ seg ∈ segs, (pyIntParse seg).isSome) : (intsOf segs).isSome := by
  induction segs with
  | nil => simp [intsOf]
  | cons x xs ih =>
    have hx := h x (List.mem_cons_self _ _)
    have hxs := ih (fun seg hs => h seg (List.mem_cons_of_mem _ hs))
    rcases Option.isSome_iff_exists.mp hx with ⟨y, hy⟩
    rcases Option.isSome_iff_exists.mp hxs with ⟨ys, hys⟩
    simp [intsOf, hy, hys]

theorem verSegments_isSome_of_ascii {v : String}
    (h : ∀ c ∈ v.toList, c.toNat < 128) : (verSegments v).isSome := by
  apply intsOf_isSome
  intro seg hseg
  have hd : pyStrIsDigit seg = true := List.of_mem_filter hseg
  apply pyIntParse_isSome_of_ascii _ hd
  intro c hc
  apply h
  have h1 : seg ∈ splitDots (stripAfterDash v.toList) := List.mem_of_mem_filter hseg
  have h2 : c ∈ stripAfterDash v.toList := splitDots_chars h1 c hc
  exact (List.takeWhile_sublist _).subset h2

/-- C3: higherVersion strips the first dash-or-underscore suffix from each
side, splits the digit-only dot segments, pads the shorter with zeros,
returns the operand with the first strictly greater segment and the first
operand on a tie, and falls back to the lexicographic maximum of the two
original strings on a parse failure — the source compare_versions realizes
exactly the spec's contract, including the quoted examples
higherVersion("1.2", "1.2.0") = "1.2" and
higherVersion("2.1.0", "2.0.9") = "2.1.0". -/
theorem C3_compare_versions_matches_spec :
    (∀ a b : String, compare_versions a b = higherVersionSpec a b) ∧
    compare_versions "1.2" "1.2.0" = "1.2" ∧
    compare_versions "2.1.0" "2.0.9" = "2.1.0" :=
  ⟨compare_versions_eq_spec, by decide, by decide⟩

/-- C10 counterexample: the superscript-two character passes Python's
str.isdigit but makes int() raise, so on the input pair ("²", "1") the
numeric body raises (compareCore is none) and the except fallback IS
reached, returning the lexicographic maximum "²" — refuting the claim that
the fallback branch is unreachable for string inputs. -/
theorem C10_counterexample_fallback_reached :
    compareCore "²" "1" = none ∧ compare_versions "²" "1" = "²" := by
  constructor
  · decide
  · decide

/-- C10 (amended): compare_versions never raises and always returns one of
its two operands; dot segments that are not pure digits are discarded
rather than raising; and the except fallback is unreachable whenever both
inputs consist of ASCII characters only (it is reachable only through
non-ASCII digit-class characters such as the superscript digits). -/
theorem C10_total_and_returns_operand :
    (∀ a b : String, compare_versions a b = a ∨ compare_versions a b = b) ∧
    (∀ a b : String, (∀ c ∈ a.toList, c.toNat < 128) →
      (∀ c ∈ b.toList, c.toNat < 128) → (compareCore a b).isSome) := by
  constructor
  · intro a b
    unfold compare_versions compareCore
    cases h1 : verSegments a with
    | none => simp only [pyMax]; split <;> [exact Or.inr rfl; exact Or.inl rfl]
    | some p1 =>
      cases h2 : verSegments b with
      | none => simp only [pyMax]; split <;> [exact Or.inr rfl; exact Or.inl rfl]
      | some p2 => exact cmpLoop_operand _ _ a b
  · intro a b ha hb
    unfold compareCore
    rcases Option.isSome_iff_exists.mp (verSegments_isSome_of_ascii ha) with ⟨p1, h1⟩
    rcases Option.isSome_iff_exists.mp (verSegments_isSome_of_ascii hb) with ⟨p2, h2⟩
    simp [h1, h2]

/-- Witness for C10: the amended theorem applied at the concrete ASCII pair
("1.2", "1.2.0"). -/
theorem C10_witness :
    (compareCore "1.2" "1.2.0").isSome ∧
    (compare_versions "1.2" "1.2.0" = "1.2" ∨
      compare_versions "1.2" "1.2.0" = "1.2.0") :=
  ⟨C10_total_and_returns_operand.2 "1.2" "1.2.0" (by decide) (by decide),
   C10_total_and_returns_operand.1 "1.2" "1.2.0"⟩

/- ===== Runtime-version inference defaults (claim C6) ===== -/

/-- C6 counterexample: on a family map with no family present (the empty
map), the SBOM-side inference returns none — not the claimed fixed default
runtime level — while the build-descriptor side also returns none. -/
theorem C6_counterexample_empty_map :
    infer_java_version_from_deps_sbom [] = Except.ok none ∧
    infer_java_version_from_deps_pom [] = none := ⟨rfl, rfl⟩

/-- C6 (amended): on every family→version map on which no inference
heuristic fires — each heuristic of the respective path yields no level —
the build-descriptor inference returns none.  The SBOM inference returns
none on the empty map (no family present); on a nonempty no-fire map it
returns the fixed default level "11" rather than none, provided the Azure
branch's version parsing does not raise; and on a nonempty no-fire map
whose Azure version token carries a digit-class character that int()
rejects, the handler-less Azure branch raises instead of returning a
default at all — as the concrete instances {"spring-boot": "garbage"}
(default "11" vs none) and {"azure-sdk-for-java": "²"} (raise) show. -/
theorem C6_default_levels :
    (∀ m : List (String × String),
      bootHeurPom m = none → fwHeurPom m = none → reactorHeurPom m = none →
      infer_java_version_from_deps_pom m = none) ∧
    infer_java_version_from_deps_sbom [] = Except.ok none ∧
    (∀ m : List (String × String), m ≠ [] →
      bootHeurSbom m = none → fwHeurSbom m = none →
      azureHeur m = Except.ok none → reactorHeurSbom m = none →
      infer_java_version_from_deps_sbom m = Except.ok (some "11")) ∧
    (∀ m : List (String × String), m ≠ [] →
      bootHeurSbom m = none → fwHeurSbom m = none →
      azureHeur m = Except.error () →
      infer_java_version_from_deps_sbom m = Except.error ()) ∧
    infer_java_version_from_deps_sbom [("spring-boot", "garbage")]
      = Except.ok (some "11") ∧
    infer_java_version_from_deps_pom [("spring-boot", "garbage")] = none ∧
    infer_java_version_from_deps_sbom [("azure-sdk-for-java", "²")]
      = Except.error () := by
  refine ⟨?_, rfl, ?_, ?_, rfl, rfl, rfl⟩
  · intro m h1 h2 h3
    unfold infer_java_version_from_deps_pom
    by_cases he : m.isEmpty
    · rw [if_pos he]
    · rw [if_neg he]
      simp only [h1, h2, h3]
  · intro m hm h1 h2 h3 h4
    have hne : ¬ m.isEmpty = true := by
      cases m with
      | nil => exact absurd rfl hm
      | cons p rest => simp [List.isEmpty]
    unfold infer_java_version_from_deps_sbom
    rw [if_neg hne]
    simp only [h1, h2, h3, h4]
  · intro m hm h1 h2 h3
    have hne : ¬ m.isEmpty = true := by
      cases m with
      | nil => exact absurd rfl hm
      | cons p rest => simp [List.isEmpty]
    unfold infer_java_version_from_deps_sbom
    rw [if_neg hne]
    simp only [h1, h2, h3]

/-- Witness for C6: the amended theorem applied at the concrete no-fire
maps [("jedis", "4.0.0")] (both paths) and [("azure-sdk-for-java", "²")]
(the raising Azure case), discharging every hypothesis there. -/
theorem C6_witness :
    infer_java_version_from_deps_sbom [("jedis", "4.0.0")] = Except.ok (some "11") ∧
    infer_java_version_from_deps_pom [("jedis", "4.0.0")] = none ∧
    infer_java_version_from_deps_sbom [("azure-sdk-for-java", "²")]
      = Except.error () :=
  ⟨C6_default_levels.2.2.1 [("jedis", "4.0.0")] (by decide) rfl rfl rfl rfl,
   C6_default_levels.1 [("jedis", "4.0.0")] rfl rfl rfl,
   C6_default_levels.2.2.2.1 [("azure-sdk-for-java", "²")] (by decide)
     rfl rfl rfl⟩

/- ===== SBOM scope filter (claim C8) ===== -/

theorem processCompJson_skip {c : SbomComponent}
    (h : includableSbom c = false) (m : List (String × String)) :
    processCompJson m c = m := by
  unfold processCompJson
  unfold includableSbom at h
  by_cases ht : c.ctype = some "library"
  · have hsc : strMem (c.scope.getD "required") ["excluded", "optional"] = true := by
      rcases Bool.and_eq_false_iff.mp h with h | h
      · exfalso
        simp [ht] at h
      · cases hs : strMem (c.scope.getD "required") ["excluded", "optional"] with
        | true => rfl
        | false => rw [hs] at h; simp at h
    rw [if_neg (by simp [ht]), if_pos hsc]
  · rw [if_pos (by simp [ht])]

theorem processCompXml_skip {c : SbomComponent}
    (h : includableSbom c = false) (m : List (String × String)) :
    processCompXml m c = m := by
  unfold processCompXml
  unfold includableSbom at h
  by_cases ht : c.ctype = some "library"
  · have hsc : strMem (c.scope.getD "required") ["excluded", "optional"] = true := by
      rcases Bool.and_eq_false_iff.mp h with h | h
      · exfalso
        simp [ht] at h
      · cases hs : strMem (c.scope.getD "required") ["excluded", "optional"] with
        | true => rfl
        | false => rw [hs] at h; simp at h
    rw [if_neg (by simp [ht])]
    cases c.group with
    | none => rfl
    | some g =>
      cases c.name with
      | none => rfl
      | some nm => simp [hsc]
  · rw [if_pos (by simp [ht])]

theorem foldl_filter_includable_json (comps : List SbomComponent) :
    ∀ acc, comps.foldl processCompJson acc =
      (comps.filter includableSbom).foldl processCompJson acc := by
  induction comps with
  | nil => intro acc; rfl
  | cons c rest ih =>
    intro acc
    cases hc : includableSbom c with
    | true => simp [List.filter_cons, hc, List.foldl_cons, ih]
    | false => simp [List.filter_cons, hc, List.foldl_cons, ih, processCompJson_skip hc]

theorem foldl_filter_includable_xml (comps : List SbomComponent) :
    ∀ acc, comps.foldl processCompXml acc =
      (comps.filter includableSbom).foldl processCompXml acc := by
  induction comps with
  | nil => intro acc; rfl
  | cons c rest ih =>
    intro acc
    cases hc : includableSbom c with
    | true => simp [List.filter_cons, hc, List.foldl_cons, ih]
    | false => simp [List.filter_cons, hc, List.foldl_cons, ih, processCompXml_skip hc]

/-- C8: on both SBOM paths a component is catalog-matched if and only if
its type is "library" and its scope (absent meaning "required") is neither
"excluded" nor "optional": the matched map is unchanged by restricting the
component list to the includable components, a scope-"optional" component
whose group and name do match the catalog contributes nothing, and the same
component with a neutral scope does contribute. -/
theorem C8_scope_filter :
    (∀ comps : List SbomComponent,
      json_matched_deps comps = json_matched_deps (comps.filter includableSbom)) ∧
    (∀ comps : List SbomComponent,
      xml_matched_deps comps = xml_matched_deps (comps.filter includableSbom)) ∧
    json_matched_deps
      [{ ctype := some "library", group := some "org.springframework.boot",
         name := some "spring-boot-starter", version := some "3.0.1",
         scope := some "optional", bomRef := none }] = [] ∧
    xml_matched_deps
      [{ ctype := some "library", group := some "org.springframework.boot",
         name := some "spring-boot-starter", version := some "3.0.1",
         scope := some "optional", bomRef := none }] = [] ∧
    json_matched_deps
      [{ ctype := some "library", group := some "org.springframework.boot",
         name := some "spring-boot-starter", version := some "3.0.1",
         scope := none, bomRef := none }] = [("spring-boot", "3.0.1")] := by
  refine ⟨?_, ?_, by decide, by decide, by decide⟩
  · intro comps
    unfold json_matched_deps
    exact foldl_filter_includable_json comps []
  · intro comps
    unfold xml_matched_deps
    exact foldl_filter_includable_xml comps []

/- ===== Build-descriptor round trip (claim C9) ===== -/

/-- C9: a single-module document with one spring-boot-family dependency at
version "3.2.1", compile scope, and no explicit runtime-version property or
compiler-plugin setting yields javaVersion "17" (boot-3.x rule) and the
dependency map {"spring-boot": "3.2.x"}. -/
theorem C9_round_trip_boot :
    extract_compile_deps_multi_module
      [some { propsJava := none, pluginJava := none,
              depEntries := [{ group := some "org.springframework.boot",
                               artifact := some "spring-boot-starter",
                               version := some "3.2.1", scope := none }] }] none
      = (some "17", [("spring-boot", "3.2.x")]) := by decide

/- ===== Within-module dependency folding (claim C5) ===== -/

/-- What one dependency element contributes to its module's map, if
anything: the family it classifies to and the stripped version, provided
group and version elements are present and the scope is compile. -/
def entryContribution (e : DepEntry) : Option (String × String) :=
  match e.group, e.version with
  | some g, some v =>
    if (e.scope.getD "compile") ≠ "compile" then none
    else
      match classify dep_mappings_pom (pyStrip g) (pyStrip (e.artifact.getD "")) with
      | some fam => some (fam, pyStrip v)
      | none => none
  | _, _ => none

/-- The version recorded for a family by the most recent contributing
entry of the list, scanning from the back. -/
def lastVersionFor : List DepEntry → String → Option String
  | [], _ => none
  | e :: rest, f =>
    match lastVersionFor rest f with
    | some v => some v
    | none =>
      match entryContribution e with
      | some (fam, v) => if fam = f then some v else none
      | none => none

theorem processDep_contribution (m : List (String × String)) (e : DepEntry) :
    processDep m e =
      (match entryContribution e with
       | some (fam, v) => dictSet m fam v
       | none => m) := by
  unfold processDep entryContribution
  cases e.group with
  | none => rfl
  | some g =>
    cases e.version with
    | none => rfl
    | some v =>
      by_cases hs : (e.scope.getD "compile") ≠ "compile"
      · simp [hs]
      · cases hcl : classify dep_mappings_pom (pyStrip g) (pyStrip (e.artifact.getD "")) with
        | none => simp [hs, hcl]
        | some fam => simp [hs, hcl]

theorem foldl_processDep_lastVersion (entries : List DepEntry) :
    ∀ (acc : List (String × String)) (f : String),
      dictGet (entries.foldl processDep acc) f =
        (match lastVersionFor entries f with
         | some v => some v
         | none => dictGet acc f) := by
  induction entries with
  | nil => intro acc f; rfl
  | cons e rest ih =>
    intro acc f
    rw [List.foldl_cons, ih]
    have hstep : dictGet (processDep acc e) f =
        (match entryContribution e with
         | some (fam, v) => if fam = f then some v else dictGet acc f
         | none => dictGet acc f) := by
      rw [processDep_contribution]
      cases hc : entryContribution e with
      | none => rfl
      | some p =>
        rcases p with ⟨fam, v⟩
        rw [dictGet_dictSet]
      
    cases hl : lastVersionFor rest f with
    | some v =>
      simp only [lastVersionFor, hl]
    | none =>
      simp only [lastVersionFor, hl, hstep]
      cases hc : entryContribution e with
      | none => rfl
      | some p =>
        rcases p with ⟨fam, v⟩
        by_cases hf : fam = f
        · simp [hf]
        · simp [hf]

/-- C5 counterexample: two compile-scope spring-boot-family declarations in
one module, 3.0.1 first and 2.7.0 second — the module records 2.7.0, the
version of the later declaration, although 3.0.1 is the higher version. -/
theorem C5_counterexample_later_lower_wins :
    extract_deps_fold
      [{ group := some "org.springframework.boot", artifact := some "a",
         version := some "3.0.1", scope := none },
       { group := some "org.springframework.boot", artifact := some "b",
         version := some "2.7.0", scope := none }]
      = [("spring-boot", "2.7.0")] ∧
    higherVersionSpec "3.0.1" "2.7.0" = "3.0.1" ∧
    ("2.7.0" : String) ≠ "3.0.1" := by
  refine ⟨by decide, by decide, by decide⟩

/-- C5 (amended): within a single module the build-descriptor extractor
resolves repeated matches of the same family by plain dict assignment, so
the version of the most recent (last) matching compile-scope declaration is
recorded — not the highest; highest-version-wins applies only at the
cross-module merge. -/
theorem C5_within_module_last_wins :
    ∀ (entries : List DepEntry) (f : String),
      dictGet (extract_deps_fold entries) f = lastVersionFor entries f := by
  intro entries f
  unfold extract_deps_fold
  rw [foldl_processDep_lastVersion]
  cases lastVersionFor entries f with
  | none => rfl
  | some v => rfl

/- ===== The highest-normalized-token selection (claim C4) ===== -/

/-- The largest normalized value among a token list (0 when empty). -/
def maxNorm (ts : List String) : Nat :=
  ts.foldl (fun a v => max a (normalize_java_version v)) 0

/-- Modelled from the spec's merge rule, amended by the counterexample:
the first token attaining the largest normalized value, provided that
value is positive; tokens all normalizing to 0 select nothing. -/
def selectJavaSpec (ts : List String) : Option String :=
  if maxNorm ts = 0 then none
  else ts.find? (fun v => normalize_java_version v = maxNorm ts)

theorem foldl_max_norm (ts : List String) :
    ∀ a : Nat, ts.foldl (fun a v => max a (normalize_java_version v)) a
      = max a (ts.foldl (fun a v => max a (normalize_java_version v)) 0) := by
  induction ts with
  | nil => intro a; simp
  | cons v rest ih =>
    intro a
    rw [List.foldl_cons, List.foldl_cons,
      ih (max a (normalize_java_version v)),
      ih (max 0 (normalize_java_version v)), Nat.zero_max, Nat.max_assoc]

theorem maxNorm_cons (v : String) (rest : List String) :
    maxNorm (v :: rest) = max (normalize_java_version v) (maxNorm rest) := by
  unfold maxNorm
  rw [List.foldl_cons, foldl_max_norm, Nat.zero_max]

theorem selectJavaGo_spec (ts : List String) :
    ∀ (hn : Nat) (best : Option String),
      selectJavaGo ts hn best =
        (if hn < maxNorm ts then
          ts.find? (fun v => normalize_java_version v = maxNorm ts)
        else best) := by
  induction ts with
  | nil =>
    intro hn best
    simp [selectJavaGo, maxNorm]
  | cons v rest ih =>
    intro hn best
    rw [maxNorm_cons]
    by_cases hv : hn < normalize_java_version v
    · rw [selectJavaGo, if_pos hv, ih]
      have hcond : hn < max (normalize_java_version v) (maxNorm rest) :=
        Nat.lt_of_lt_of_le hv (Nat.le_max_left _ _)
      rw [if_pos hcond]
      by_cases hm : normalize_java_version v < maxNorm rest
      · have hmax : max (normalize_java_version v) (maxNorm rest) = maxNorm rest :=
          Nat.max_eq_right (Nat.le_of_lt hm)
        rw [hmax, if_pos hm, List.find?_cons]
        have : (normalize_java_version v = maxNorm rest) = False := by
          simp [Nat.ne_of_lt hm]
        simp [this]
      · have hge : maxNorm rest ≤ normalize_java_version v := Nat.not_lt.mp hm
        have hmax : max (normalize_java_version v) (maxNorm rest)
            = normalize_java_version v := Nat.max_eq_left hge
        rw [hmax, if_neg hm, List.find?_cons]
        simp
    · rw [selectJavaGo, if_neg hv, ih]
      have hle : normalize_java_version v ≤ hn := Nat.not_lt.mp hv
      by_cases hm : hn < maxNorm rest
      · have hvm : normalize_java_version v < maxNorm rest :=
          Nat.lt_of_le_of_lt hle hm
        have hmax : max (normalize_java_version v) (maxNorm rest) = maxNorm rest :=
          Nat.max_eq_right (Nat.le_of_lt hvm)
        have hcond : hn < max (normalize_java_version v) (maxNorm rest) := by
          rw [hmax]; exact hm
        rw [if_pos hm, if_pos hcond, hmax, List.find?_cons]
        have : (normalize_java_version v = maxNorm rest) = False := by
          simp [Nat.ne_of_lt hvm]
        simp [this]
      · have hcond : ¬ hn < max (normalize_java_version v) (maxNorm rest) :=
          Nat.not_lt.mpr (Nat.max_le.mpr ⟨hle, Nat.not_lt.mp hm⟩)
        rw [if_neg hm, if_neg hcond]

theorem selectJava_eq_spec (ts : List String) :
    selectJava ts = selectJavaSpec ts := by
  unfold selectJava selectJavaSpec
  rw [selectJavaGo_spec]
  by_cases h : maxNorm ts = 0
  · rw [h, if_neg (Nat.lt_irrefl 0), if_pos rfl]
  · rw [if_pos (Nat.pos_of_ne_zero h), if_neg h]

/- ===== The cross-module merge (claim C4) ===== -/

theorem dictGet_isSome_iff_mem_keys (m : List (String × String)) (k : String) :
    (dictGet m k).isSome ↔ k ∈ dictKeys m := by
  induction m with
  | nil => simp [dictGet, dictKeys]
  | cons p rest ih =>
    by_cases h : p.1 = k
    · simp [dictGet, dictKeys, h]
    · have h' : ¬ k = p.1 := fun e => h e.symm
      simp [dictGet, dictKeys, h, h', ih]

theorem dictKeys_dictSet_mem (m : List (String × String)) (k v : String) :
    k ∈ dictKeys m → dictKeys (dictSet m k v) = dictKeys m := by
  induction m with
  | nil => intro h; simp [dictKeys] at h
  | cons p rest ih =>
    rcases p with ⟨k1, v1⟩
    intro h
    simp only [dictKeys, List.map_cons, List.mem_cons] at h
    by_cases hp : k1 = k
    · simp [dictSet, hp, dictKeys]
    · have hmem : k ∈ dictKeys rest := by
        rcases h with h | h
        · exact absurd h.symm hp
        · exact h
      simp only [dictSet, if_neg hp, dictKeys, List.map_cons]
      exact congrArg (k1 :: ·) (ih hmem)

theorem dictKeys_dictSet_not_mem (m : List (String × String)) (k v : String) :
    ¬ k ∈ dictKeys m → dictKeys (dictSet m k v) = dictKeys m ++ [k] := by
  induction m with
  | nil => intro h; simp [dictSet, dictKeys]
  | cons p rest ih =>
    rcases p with ⟨k1, v1⟩
    intro h
    simp only [dictKeys, List.map_cons, List.mem_cons] at h
    have hp : ¬ k1 = k := by
      intro e
      exact h (Or.inl e.symm)
    have hrest : ¬ k ∈ dictKeys rest := by
      intro hr
      exact h (Or.inr hr)
    simp only [dictSet, if_neg hp, dictKeys, List.map_cons, List.cons_append]
    exact congrArg (k1 :: ·) (ih hrest)

theorem dictKeys_nodup_dictSet (m : List (String × String)) (k v : String)
    (h : (dictKeys m).Nodup) : (dictKeys (dictSet m k v)).Nodup := by
  by_cases hk : k ∈ dictKeys m
  · rw [dictKeys_dictSet_mem m k v hk]; exact h
  · rw [dictKeys_dictSet_not_mem m k v hk]
    rw [List.nodup_append]
    exact ⟨h, List.nodup_singleton k, by simpa using hk⟩

theorem extract_deps_fold_keys_nodup (entries : List DepEntry) :
    (dictKeys (extract_deps_fold entries)).Nodup := by
  unfold extract_deps_fold
  have main : ∀ (es : List DepEntry) (acc : List (String × String)),
      (dictKeys acc).Nodup → (dictKeys (es.foldl processDep acc)).Nodup := by
    intro es
    induction es with
    | nil => intro acc h; exact h
    | cons e rest ih =>
      intro acc h
      rw [List.foldl_cons]
      apply ih
      rw [processDep_contribution]
      cases entryContribution e with
      | none => exact h
      | some p => exact dictKeys_nodup_dictSet acc p.1 p.2 h
  exact main entries [] (by simp [dictKeys])

theorem dictGet_none_of_not_mem (m : List (String × String)) (k : String)
    (h : ¬ k ∈ dictKeys m) : dictGet m k = none := by
  cases hg : dictGet m k with
  | none => rfl
  | some v =>
    exact absurd ((dictGet_isSome_iff_mem_keys m k).mp (by simp [hg])) h

/-- The per-family effect of merging one module map into the accumulator,
provided the module map has unique keys (as every dict-built map does). -/
theorem dictGet_mergeOne (m : List (String × String)) :
    ∀ (acc : List (String × String)) (f : String), (dictKeys m).Nodup →
      dictGet (mergeOne acc m) f =
        (match dictGet m f with
         | none => dictGet acc f
         | some v =>
           some (match dictGet acc f with
                 | some old => compare_versions old v
                 | none => v)) := by
  induction m with
  | nil => intro acc f h; rfl
  | cons p rest ih =>
    intro acc f h
    rcases p with ⟨k, v⟩
    have hknotin : ¬ k ∈ dictKeys rest := by
      have := h
      rw [dictKeys, List.map_cons, List.nodup_cons] at this
      exact this.1
    have hrest : (dictKeys rest).Nodup := by
      have := h
      rw [dictKeys, List.map_cons, List.nodup_cons] at this
      exact this.2
    have hstep : mergeOne acc ((k, v) :: rest) =
        mergeOne (match dictGet acc k with
                  | some old => dictSet acc k (compare_versions old v)
                  | none => dictSet acc k v) rest := by
      unfold mergeOne
      rw [List.foldl_cons]
    rw [hstep, ih _ f hrest]
    by_cases hf : k = f
    · subst hf
      rw [dictGet_none_of_not_mem rest k hknotin]
      cases hacc : dictGet acc k with
      | none => simp [dictGet, dictGet_dictSet, hacc]
      | some old => simp [dictGet, dictGet_dictSet, hacc]
    · have hget : dictGet ((k, v) :: rest) f = dictGet rest f := by
        simp [dictGet, hf]
      rw [hget]
      cases hrf : dictGet rest f with
      | none =>
        cases hacc : dictGet acc k with
        | none => simp [dictGet_dictSet, hf]
        | some old => simp [dictGet_dictSet, hf]
      | some w =>
        cases hacc : dictGet acc k with
        | none => simp [dictGet_dictSet, hf]
        | some old => simp [dictGet_dictSet, hf]

/-- Modelled from the spec's highest-version-wins rule: fold a family's
versions, in module order, with the spec's higherVersion. -/
def mergeFamSpec (a : Option String) (vs : List String) : Option String :=
  vs.foldl
    (fun acc v =>
      match acc with
      | some old => some (higherVersionSpec old v)
      | none => some v)
    a

/-- The versions a family receives from the per-module results, in order. -/
def famVersions (rs : List (Option String × List (String × String)))
    (f : String) : List String :=
  rs.filterMap (fun r => dictGet r.2 f)

theorem mergeFamSpec_append (a : Option String) (l1 l2 : List String) :
    mergeFamSpec a (l1 ++ l2) = mergeFamSpec (mergeFamSpec a l1) l2 := by
  unfold mergeFamSpec
  rw [List.foldl_append]

theorem dictGet_foldl_mergeOne (rs : List (Option String × List (String × String))) :
    ∀ (acc : List (String × String)) (f : String),
      (∀ r ∈ rs, (dictKeys r.2).Nodup) →
      dictGet (rs.foldl (fun acc r => mergeOne acc r.2) acc) f =
        mergeFamSpec (dictGet acc f) (famVersions rs f) := by
  induction rs with
  | nil => intro acc f _; rfl
  | cons r rest ih =>
    intro acc f hnd
    rw [List.foldl_cons]
    rw [ih (mergeOne acc r.2) f (fun q hq => hnd q (List.mem_cons_of_mem _ hq))]
    have hr : (dictKeys r.2).Nodup := hnd r (List.mem_cons_self _ _)
    rw [dictGet_mergeOne r.2 acc f hr]
    have hfv : famVersions (r :: rest) f =
        (match dictGet r.2 f with
         | some v => [v]
         | none => []) ++ famVersions rest f := by
      unfold famVersions
      rw [List.filterMap_cons]
      cases dictGet r.2 f with
      | none => rfl
      | some v => rfl
    rw [hfv, mergeFamSpec_append]
    cases hg : dictGet r.2 f with
    | none => rfl
    | some v =>
      cases hacc : dictGet acc f with
      | none =>
        simp only [mergeFamSpec, List.foldl_cons, List.foldl_nil]
      | some old =>
        simp only [mergeFamSpec, List.foldl_cons, List.foldl_nil,
          compare_versions_eq_spec]

theorem dictGet_mapValues (g : String → String) (m : List (String × String)) :
    ∀ f : String, dictGet (mapValues g m) f = (dictGet m f).map g := by
  induction m with
  | nil => intro f; rfl
  | cons p rest ih =>
    intro f
    rcases p with ⟨k, v⟩
    by_cases hk : k = f
    · simp [mapValues, dictGet, hk]
    · have h1 : dictGet (mapValues g ((k, v) :: rest)) f
          = dictGet (mapValues g rest) f := by
        show (if k = f then some (g v) else dictGet (mapValues g rest) f) = _
        rw [if_neg hk]
      have h2 : dictGet ((k, v) :: rest) f = dictGet rest f := by
        show (if k = f then some v else dictGet rest f) = _
        rw [if_neg hk]
      rw [h1, h2, ih f]

theorem extractModule_snd (m : ModuleInput) (fb : Option String) :
    (extractModule m fb).2 = extract_deps_fold m.depEntries := rfl

theorem extract_deps_from_xml_keys_nodup (s : Option ModuleInput)
    (fb : Option String) :
    (dictKeys (extract_deps_from_xml_model s fb).2).Nodup := by
  cases s with
  | none => simp [extract_deps_from_xml_model, dictKeys]
  | some m =>
    show (dictKeys (extractModule m fb).2).Nodup
    rw [extractModule_snd]
    exact extract_deps_fold_keys_nodup m.depEntries

theorem multi_module_deps_merge (sections : List (Option ModuleInput))
    (fb : Option String) (f : String) :
    dictGet (extract_compile_deps_multi_module sections fb).2 f =
      (mergeFamSpec none
        (famVersions (sections.map (fun s => extract_deps_from_xml_model s fb)) f)).map
        version_to_x := by
  cases sections with
  | nil => rfl
  | cons s0 rest =>
    have hne : (s0 :: rest).isEmpty = false := rfl
    have hproj : (extract_compile_deps_multi_module (s0 :: rest) fb).2 =
        mapValues version_to_x
          (((s0 :: rest).map (fun s => extract_deps_from_xml_model s fb)).foldl
            (fun acc r => mergeOne acc r.2) []) := by
      unfold extract_compile_deps_multi_module
      rw [if_neg (by simp [hne])]
    rw [hproj, dictGet_mapValues,
      dictGet_foldl_mergeOne _ [] f
        (by
          intro r hr
          rcases List.mem_map.mp hr with ⟨s, hs, hrs⟩
          rw [← hrs]
          exact extract_deps_from_xml_keys_nodup s fb)]
    rfl

/-- C4 counterexample: a two-module input whose modules both report a
runtime-version token, the two tokens tying at normalized value 0 — the
merged record keeps neither token (javaVersion is none), although the claim
requires the first-seen token "zz" to win the tie. -/
theorem C4_counterexample_zero_norm_tokens :
    (extract_deps_from_xml_model
      (some { propsJava := some "zz", pluginJava := none, depEntries := [] }) none).1
      = some "zz" ∧
    (extract_deps_from_xml_model
      (some { propsJava := some "ww", pluginJava := none, depEntries := [] }) none).1
      = some "ww" ∧
    normalize_java_version "zz" = 0 ∧
    normalize_java_version "ww" = 0 ∧
    (extract_compile_deps_multi_module
      [some { propsJava := some "zz", pluginJava := none, depEntries := [] },
       some { propsJava := some "ww", pluginJava := none, depEntries := [] }] none).1
      = none := by
  refine ⟨rfl, rfl, rfl, rfl, rfl⟩

/-- C4 (amended): the module merge folds each family's per-module versions
with the spec's higherVersion (highest-version-wins) and canonicalizes with
version_to_x, as in the spring-boot 2.7.0 / 3.0.1 example which merges to
3.0.x with inferred runtime version 17; among the per-module runtime-version
tokens it keeps the first-seen token of highest normalized value provided
that value is positive — when every token normalizes to 0 no token is kept
and inference or the fallback applies instead. -/
theorem C4_module_merge :
    (∀ (sections : List (Option ModuleInput)) (fb : Option String) (f : String),
      dictGet (extract_compile_deps_multi_module sections fb).2 f =
        (mergeFamSpec none
          (famVersions (sections.map (fun s => extract_deps_from_xml_model s fb)) f)).map
          version_to_x) ∧
    (∀ ts : List String, selectJava ts = selectJavaSpec ts) ∧
    extract_compile_deps_multi_module
      [some { propsJava := none, pluginJava := none,
              depEntries := [{ group := some "org.springframework.boot",
                               artifact := some "a", version := some "2.7.0",
                               scope := none }] },
       some { propsJava := none, pluginJava := none,
              depEntries := [{ group := some "org.springframework.boot",
                               artifact := some "b", version := some "3.0.1",
                               scope := none }] }] none
      = (some "17", [("spring-boot", "3.0.x")]) :=
  ⟨multi_module_deps_merge, selectJava_eq_spec, by decide⟩

/- ===== Graph-walk lemmas (claims C1 and C2) ===== -/

theorem insertNew_sub (l : List String) (x : String) :
    ∀ y ∈ l, y ∈ insertNew l x := by
  intro y hy
  unfold insertNew
  split
  · exact hy
  · exact List.mem_cons_of_mem _ hy

theorem mem_insertNew (l : List String) (x : String) : x ∈ insertNew l x := by
  unfold insertNew
  split
  · assumption
  · exact List.mem_cons_self _ _

theorem mem_of_insertNew {l : List String} {x y : String}
    (h : y ∈ insertNew l x) : y = x ∨ y ∈ l := by
  unfold insertNew at h
  by_cases hx : x ∈ l
  · rw [if_pos hx] at h
    exact Or.inr h
  · rw [if_neg hx] at h
    exact List.mem_cons.mp h

theorem insertNew_nodup {l : List String} (x : String) (h : l.Nodup) :
    (insertNew l x).Nodup := by
  unfold insertNew
  split
  · exact h
  · exact List.nodup_cons.mpr ⟨by assumption, h⟩

theorem childLoop_mono
    (rec : String → List String × List String → List String × List String)
    (hrec : ∀ c st, (∀ x ∈ st.1, x ∈ (rec c st).1) ∧ (∀ x ∈ st.2, x ∈ (rec c st).2)) :
    ∀ (cs : List String) (st : List String × List String),
      (∀ x ∈ st.1, x ∈ (childLoop rec cs st).1) ∧
      (∀ x ∈ st.2, x ∈ (childLoop rec cs st).2) := by
  intro cs
  induction cs with
  | nil => intro st; exact ⟨fun x hx => hx, fun x hx => hx⟩
  | cons c rest ih =>
    intro st
    have h1 := hrec c (insertNew st.1 c, st.2)
    have h2 := ih (rec c (insertNew st.1 c, st.2))
    constructor
    · intro x hx
      exact h2.1 x (h1.1 x (insertNew_sub st.1 c x hx))
    · intro x hx
      exact h2.2 x (h1.2 x hx)

theorem collectStep_mono (adj : List (String × List String)) :
    ∀ (fuel : Nat) (ref : String) (st : List String × List String),
      (∀ x ∈ st.1, x ∈ (collectStep fuel adj ref st).1) ∧
      (∀ x ∈ st.2, x ∈ (collectStep fuel adj ref st).2) := by
  intro fuel
  induction fuel with
  | zero => intro ref st; exact ⟨fun x hx => hx, fun x hx => hx⟩
  | succ n ih =>
    intro ref st
    show (∀ x ∈ st.1, x ∈ (collectStep (n + 1) adj ref st).1) ∧ _
    rw [collectStep]
    by_cases hv : ref ∈ st.2
    · rw [if_pos hv]
      exact ⟨fun x hx => hx, fun x hx => hx⟩
    · rw [if_neg hv]
      cases hadj : adjLookup adj ref with
      | none =>
        exact ⟨fun x hx => hx, fun x hx => List.mem_cons_of_mem _ hx⟩
      | some children =>
        have h := childLoop_mono (fun r s => collectStep n adj r s)
          (fun c s => ih c s) children (st.1, ref :: st.2)
        exact ⟨fun x hx => h.1 x hx, fun x hx => h.2 x (List.mem_cons_of_mem _ hx)⟩

theorem childLoop_sound
    (rec : String → List String × List String → List String × List String)
    (R : String → String → Prop)
    (hrec : ∀ c st, ∀ b ∈ (rec c st).1, b ∈ st.1 ∨ R c b) :
    ∀ (cs : List String) (st : List String × List String),
      ∀ b ∈ (childLoop rec cs st).1, b ∈ st.1 ∨ ∃ c ∈ cs, b = c ∨ R c b := by
  intro cs
  induction cs with
  | nil => intro st b hb; exact Or.inl hb
  | cons c rest ih =>
    intro st b hb
    rcases ih (rec c (insertNew st.1 c, st.2)) b hb with h | h
    · rcases hrec c (insertNew st.1 c, st.2) b h with h' | h'
      · rcases mem_of_insertNew h' with h'' | h''
        · exact Or.inr ⟨c, List.mem_cons_self _ _, Or.inl h''⟩
        · exact Or.inl h''
      · exact Or.inr ⟨c, List.mem_cons_self _ _, Or.inr h'⟩
    · rcases h with ⟨c', hc', h'⟩
      exact Or.inr ⟨c', List.mem_cons_of_mem _ hc', h'⟩

theorem collectStep_sound (adj : List (String × List String)) :
    ∀ (fuel : Nat) (ref : String) (st : List String × List String),
      ∀ b ∈ (collectStep fuel adj ref st).1, b ∈ st.1 ∨ ReachPlus adj ref b := by
  intro fuel
  induction fuel with
  | zero => intro ref st b hb; exact Or.inl hb
  | succ n ih =>
    intro ref st b hb
    rw [collectStep] at hb
    by_cases hv : ref ∈ st.2
    · rw [if_pos hv] at hb
      exact Or.inl hb
    · rw [if_neg hv] at hb
      cases hadj : adjLookup adj ref with
      | none =>
        rw [hadj] at hb
        exact Or.inl hb
      | some children =>
        rw [hadj] at hb
        rcases childLoop_sound (fun r s => collectStep n adj r s)
          (ReachPlus adj) (fun c s => ih c s) children (st.1, ref :: st.2) b hb with
          h | ⟨c, hc, h⟩
        · exact Or.inl h
        · have hedge : AdjEdge adj ref c := ⟨children, hadj, hc⟩
          rcases h with h | h
          · exact Or.inr (h ▸ Relation.TransGen.single hedge)
          · exact Or.inr (Relation.TransGen.head hedge h)

theorem childLoop_nodup
    (rec : String → List String × List String → List String × List String)
    (hrec : ∀ c st, st.1.Nodup → (rec c st).1.Nodup) :
    ∀ (cs : List String) (st : List String × List String),
      st.1.Nodup → (childLoop rec cs st).1.Nodup := by
  intro cs
  induction cs with
  | nil => intro st h; exact h
  | cons c rest ih =>
    intro st h
    exact ih _ (hrec c (insertNew st.1 c, st.2) (insertNew_nodup c h))

theorem collectStep_nodup (adj : List (String × List String)) :
    ∀ (fuel : Nat) (ref : String) (st : List String × List String),
      st.1.Nodup → (collectStep fuel adj ref st).1.Nodup := by
  intro fuel
  induction fuel with
  | zero => intro ref st h; exact h
  | succ n ih =>
    intro ref st h
    rw [collectStep]
    by_cases hv : ref ∈ st.2
    · rw [if_pos hv]; exact h
    · rw [if_neg hv]
      cases hadj : adjLookup adj ref with
      | none => exact h
      | some children =>
        exact childLoop_nodup (fun r s => collectStep n adj r s)
          (fun c s => ih c s) children (st.1, ref :: st.2) h

/-- The adjacency map's children all appear in refsList. -/
theorem adjLookup_children_refsList (adj : List (String × List String)) :
    ∀ (a : String) (cs : List String), adjLookup adj a = some cs →
      ∀ c ∈ cs, c ∈ refsList adj := by
  induction adj with
  | nil => intro a cs h; exact absurd h (by simp [adjLookup])
  | cons p rest ih =>
    intro a cs h c hc
    rcases p with ⟨k, l⟩
    unfold adjLookup at h
    by_cases hk : k = a
    · rw [if_pos hk] at h
      have : cs = l := by injection h with h'; exact h'.symm
      subst this
      show c ∈ k :: cs ++ refsList rest
      exact List.mem_cons_of_mem _ (List.mem_append_left _ hc)
    · rw [if_neg hk] at h
      show c ∈ k :: l ++ refsList rest
      exact List.mem_cons_of_mem _ (List.mem_append_right _ (ih a cs h c hc))

/-- Children closedness for the walk's ref universe. -/
theorem urefs_closed (adj : List (String × List String)) (root : String) :
    ∀ (a : String) (cs : List String), adjLookup adj a = some cs →
      ∀ c ∈ cs, c ∈ urefs adj root := by
  intro a cs h c hc
  unfold urefs
  rw [List.mem_toFinset]
  exact List.mem_cons_of_mem _ (adjLookup_children_refsList adj a cs h c hc)

theorem root_mem_urefs (adj : List (String × List String)) (root : String) :
    root ∈ urefs adj root := by
  unfold urefs
  rw [List.mem_toFinset]
  exact List.mem_cons_self _ _

/-- Visiting a new ref of the universe strictly shrinks the unvisited part. -/
theorem card_visit_lt {U : Finset String} {vis : List String} {r : String}
    (hU : r ∈ U) (hvis : r ∉ vis) :
    (U \ (r :: vis).toFinset).card < (U \ vis.toFinset).card := by
  apply Finset.card_lt_card
  constructor
  · intro x hx
    rw [Finset.mem_sdiff] at hx ⊢
    refine ⟨hx.1, fun hm => hx.2 ?_⟩
    rw [List.toFinset_cons]
    exact Finset.mem_insert_of_mem hm
  · intro hsub
    have hr : r ∈ U \ vis.toFinset := by
      rw [Finset.mem_sdiff]
      exact ⟨hU, by simpa using hvis⟩
    have := hsub hr
    rw [Finset.mem_sdiff, List.toFinset_cons] at this
    exact this.2 (Finset.mem_insert_self _ _)

/-- Growing the visited list cannot grow the unvisited part. -/
theorem card_visited_mono {U : Finset String} {vis vis' : List String}
    (h : ∀ x ∈ vis, x ∈ vis') :
    (U \ vis'.toFinset).card ≤ (U \ vis.toFinset).card := by
  apply Finset.card_le_card
  intro x hx
  rw [Finset.mem_sdiff] at hx ⊢
  refine ⟨hx.1, fun hm => hx.2 ?_⟩
  rw [List.mem_toFinset] at hm ⊢
  exact h x hm

/-- All the children of a ref are present in a state, both in the result
set and in the visited set. -/
def Expanded (adj : List (String × List String))
    (st : List String × List String) (x : String) : Prop :=
  ∀ cs, adjLookup adj x = some cs → ∀ c ∈ cs, c ∈ st.1 ∧ c ∈ st.2

theorem Expanded_mono {adj : List (String × List String)}
    {st st' : List String × List String} {x : String}
    (h1 : ∀ y ∈ st.1, y ∈ st'.1) (h2 : ∀ y ∈ st.2, y ∈ st'.2)
    (h : Expanded adj st x) : Expanded adj st' x := by
  intro cs hcs c hc
  rcases h cs hcs c hc with ⟨ha, hb⟩
  exact ⟨h1 c ha, h2 c hb⟩

/-- Completeness of the walk at sufficient fuel: the walked ref ends up
visited, and every newly visited ref is fully expanded in the final state. -/
theorem collectStep_complete (adj : List (String × List String))
    (U : Finset String)
    (hadj : ∀ a cs, adjLookup adj a = some cs → ∀ c ∈ cs, c ∈ U) :
    ∀ (fuel : Nat) (ref : String) (st : List String × List String),
      ref ∈ U → (U \ st.2.toFinset).card < fuel →
      ref ∈ (collectStep fuel adj ref st).2 ∧
      (∀ x ∈ (collectStep fuel adj ref st).2,
        x ∈ st.2 ∨ Expanded adj (collectStep fuel adj ref st) x) := by
  intro fuel
  induction fuel with
  | zero =>
    intro ref st _ hcard
    exact absurd hcard (Nat.not_lt_zero _)
  | succ n ih =>
    intro ref st hU hcard
    rw [collectStep]
    by_cases hv : ref ∈ st.2
    · rw [if_pos hv]
      exact ⟨hv, fun x hx => Or.inl hx⟩
    · rw [if_neg hv]
      cases hadjr : adjLookup adj ref with
      | none =>
        refine ⟨List.mem_cons_self _ _, ?_⟩
        intro x hx
        rcases List.mem_cons.mp hx with hx | hx
        · subst hx
          exact Or.inr (fun cs hcs => absurd hcs (by simp [hadjr]))
        · exact Or.inl hx
      | some children =>
        have hchild : ∀ c ∈ children, c ∈ U := hadj ref children hadjr
        have hcard1 : (U \ ((st.1, ref :: st.2) : List String × List String).2.toFinset).card < n := by
          have hlt := @card_visit_lt _ st.2 _ hU hv
          exact Nat.lt_of_lt_of_le hlt (Nat.le_of_lt_succ hcard)
        -- the child loop at fuel n
        have main : ∀ (cs : List String) (st0 : List String × List String),
            (∀ c ∈ cs, c ∈ U) → (U \ st0.2.toFinset).card < n →
            (∀ c ∈ cs, c ∈ (childLoop (fun r s => collectStep n adj r s) cs st0).1 ∧
              c ∈ (childLoop (fun r s => collectStep n adj r s) cs st0).2) ∧
            (∀ x ∈ (childLoop (fun r s => collectStep n adj r s) cs st0).2,
              x ∈ st0.2 ∨
              Expanded adj (childLoop (fun r s => collectStep n adj r s) cs st0) x) := by
          intro cs
          induction cs with
          | nil =>
            intro st0 _ _
            exact ⟨fun c hc => absurd hc (List.not_mem_nil c), fun x hx => Or.inl hx⟩
          | cons c rest ihc =>
            intro st0 hcsU hc0
            have hcU : c ∈ U := hcsU c (List.mem_cons_self _ _)
            have hstep := ih c (insertNew st0.1 c, st0.2) hcU hc0
            set st1 := collectStep n adj c (insertNew st0.1 c, st0.2) with hst1
            have hmono1 := collectStep_mono adj n c (insertNew st0.1 c, st0.2)
            have hcard2 : (U \ st1.2.toFinset).card < n :=
              Nat.lt_of_le_of_lt (card_visited_mono (fun x hx => hmono1.2 x hx)) hc0
            have hrest := ihc st1 (fun c' hc' => hcsU c' (List.mem_cons_of_mem _ hc')) hcard2
            have hmono2 := childLoop_mono (fun r s => collectStep n adj r s)
              (fun c' s => collectStep_mono adj n c' s) rest st1
            constructor
            · intro c' hc'
              rcases List.mem_cons.mp hc' with hc' | hc'
              · subst hc'
                constructor
                · exact hmono2.1 _ (hmono1.1 _ (mem_insertNew st0.1 c'))
                · exact hmono2.2 _ hstep.1
              · exact hrest.1 c' hc'
            · intro x hx
              rcases hrest.2 x hx with hx1 | hx1
              · rcases hstep.2 x hx1 with hx2 | hx2
                · exact Or.inl hx2
                · exact Or.inr (Expanded_mono (fun y hy => hmono2.1 y hy)
                    (fun y hy => hmono2.2 y hy) hx2)
              · exact Or.inr hx1
        have hm := main children (st.1, ref :: st.2) hchild hcard1
        have hmonoc := childLoop_mono (fun r s => collectStep n adj r s)
          (fun c' s => collectStep_mono adj n c' s) children (st.1, ref :: st.2)
        refine ⟨hmonoc.2 ref (List.mem_cons_self _ _), ?_⟩
        intro x hx
        rcases hm.2 x hx with hx1 | hx1
        · rcases List.mem_cons.mp hx1 with hx2 | hx2
          · subst hx2
            refine Or.inr ?_
            intro cs hcs c hc
            rw [hadjr] at hcs
            have : cs = children := by injection hcs with h'; exact h'.symm
            subst this
            exact hm.1 c hc
          · exact Or.inl hx2
        · exact Or.inr hx1

/-- At any two sufficient fuels the walk computes the same state: the
visited-set guard makes the recursion depth bounded by the number of
unvisited refs, so extra fuel is never consumed. -/
theorem collectStep_fuel_congr (adj : List (String × List String))
    (U : Finset String)
    (hadj : ∀ a cs, adjLookup adj a = some cs → ∀ c ∈ cs, c ∈ U) :
    ∀ (fuel fuel' : Nat) (ref : String) (st : List String × List String),
      ref ∈ U → (U \ st.2.toFinset).card < fuel →
      (U \ st.2.toFinset).card < fuel' →
      collectStep fuel adj ref st = collectStep fuel' adj ref st := by
  intro fuel
  induction fuel with
  | zero =>
    intro fuel' ref st _ hcard _
    exact absurd hcard (Nat.not_lt_zero _)
  | succ n ih =>
    intro fuel' ref st hU hcard hcard'
    cases fuel' with
    | zero => exact absurd hcard' (Nat.not_lt_zero _)
    | succ m =>
      rw [collectStep, collectStep]
      by_cases hv : ref ∈ st.2
      · rw [if_pos hv, if_pos hv]
      · rw [if_neg hv, if_neg hv]
        cases hadjr : adjLookup adj ref with
        | none => rfl
        | some children =>
          have hchild : ∀ c ∈ children, c ∈ U := hadj ref children hadjr
          have hcard1 : (U \ ((ref :: st.2).toFinset)).card < n := by
            have hlt := @card_visit_lt _ st.2 _ hU hv
            exact Nat.lt_of_lt_of_le hlt (Nat.le_of_lt_succ hcard)
          have hcard1' : (U \ ((ref :: st.2).toFinset)).card < m := by
            have hlt := @card_visit_lt _ st.2 _ hU hv
            exact Nat.lt_of_lt_of_le hlt (Nat.le_of_lt_succ hcard')
          have main : ∀ (cs : List String) (st0 : List String × List String),
              (∀ c ∈ cs, c ∈ U) → (U \ st0.2.toFinset).card < n →
              (U \ st0.2.toFinset).card < m →
              childLoop (fun r s => collectStep n adj r s) cs st0 =
              childLoop (fun r s => collectStep m adj r s) cs st0 := by
            intro cs
            induction cs with
            | nil => intro st0 _ _ _; rfl
            | cons c rest ihc =>
              intro st0 hcsU hc0 hc0'
              have hcU : c ∈ U := hcsU c (List.mem_cons_self _ _)
              have hstepeq : collectStep n adj c (insertNew st0.1 c, st0.2) =
                  collectStep m adj c (insertNew st0.1 c, st0.2) :=
                ih m c (insertNew st0.1 c, st0.2) hcU hc0 hc0'
              show childLoop (fun r s => collectStep n adj r s) rest
                    (collectStep n adj c (insertNew st0.1 c, st0.2)) =
                  childLoop (fun r s => collectStep m adj r s) rest
                    (collectStep m adj c (insertNew st0.1 c, st0.2))
              rw [← hstepeq]
              set st1 := collectStep n adj c (insertNew st0.1 c, st0.2) with hst1
              have hmono1 := collectStep_mono adj n c (insertNew st0.1 c, st0.2)
              have hcard2 : (U \ st1.2.toFinset).card < n :=
                Nat.lt_of_le_of_lt (card_visited_mono (fun x hx => hmono1.2 x hx)) hc0
              have hcard2' : (U \ st1.2.toFinset).card < m :=
                Nat.lt_of_le_of_lt (card_visited_mono (fun x hx => hmono1.2 x hx)) hc0'
              exact ihc st1 (fun c' hc' => hcsU c' (List.mem_cons_of_mem _ hc'))
                hcard2 hcard2'
          exact main children (st.1, ref :: st.2) hchild hcard1 hcard1'

/-- C1 counterexample: on the adjacency {A:[B,C], B:[C], C:[A]} (a cycle
back to A) the walk returns a set CONTAINING the root A, because every
child of a visited ref is added to the result before the visited check —
so the result is not {B, C} as claimed. -/
theorem C1_counterexample_root_in_result :
    ("A" ∈ collect_transitive_deps
      [("A", ["B", "C"]), ("B", ["C"]), ("C", ["A"])] "A") ∧
    ¬ (("A" : String) = "B" ∨ ("A" : String) = "C") := by
  exact ⟨by decide, by decide⟩

/-- C1 (amended): collectTransitive returns exactly the references
reachable from the root via one or more edges, each exactly once — with no
special exclusion of the root, which therefore appears in its own result
precisely when it lies on a cycle reachable from itself; on the cycle
example the result is {A, B, C}. -/
theorem C1_collect_transitive_exact_reachable :
    ∀ (adj : List (String × List String)) (root : String),
      (∀ y : String,
        y ∈ collect_transitive_deps adj root ↔ ReachPlus adj root y) ∧
      (collect_transitive_deps adj root).Nodup := by
  intro adj root
  have hcardB : ((urefs adj root) \ (([] : List String)).toFinset).card
      < collectBound adj root := by
    rw [List.toFinset_nil, Finset.sdiff_empty]
    exact Nat.lt_succ_self _
  have hcomp := collectStep_complete adj (urefs adj root)
    (urefs_closed adj root) (collectBound adj root) root ([], [])
    (root_mem_urefs adj root) hcardB
  constructor
  · intro y
    constructor
    · intro hy
      rcases collectStep_sound adj (collectBound adj root) root ([], []) y hy
        with h | h
      · exact absurd h (List.not_mem_nil y)
      · exact h
    · intro hy
      have hvis : ∀ x : String, Relation.ReflTransGen (AdjEdge adj) root x →
          x ∈ (collectStep (collectBound adj root) adj root ([], [])).2 := by
        intro x hx
        induction hx with
        | refl => exact hcomp.1
        | tail hab e ihx =>
          rcases hcomp.2 _ ihx with h | h
          · exact absurd h (List.not_mem_nil _)
          · rcases e with ⟨cs, hcs, hmem⟩
            exact (h cs hcs _ hmem).2
      rcases (Relation.TransGen.tail'_iff).mp hy with ⟨x, hx, e⟩
      have hxv := hvis x hx
      rcases hcomp.2 x hxv with h | h
      · exact absurd h (List.not_mem_nil _)
      · rcases e with ⟨cs, hcs, hmem⟩
        exact (h cs hcs _ hmem).1
  · exact collectStep_nodup adj (collectBound adj root) root ([], [])
      List.nodup_nil

/-- C2: for every finite adjacency map — cyclic ones and ones with absent
children included — the walk terminates: any fuel beyond the number of
distinct refs produces the very same state as the computable bound, so the
recursion is insensitive to extra fuel and collect_transitive_deps is its
stable value. -/
theorem C2_walk_terminates :
    ∀ (adj : List (String × List String)) (root : String) (fuel : Nat),
      (urefs adj root).card < fuel →
      collectStep fuel adj root ([], []) =
        collectStep (collectBound adj root) adj root ([], []) ∧
      (collectStep fuel adj root ([], [])).1 = collect_transitive_deps adj root := by
  intro adj root fuel hf
  have hcard : ((urefs adj root) \ (([] : List String)).toFinset).card < fuel := by
    rw [List.toFinset_nil, Finset.sdiff_empty]
    exact hf
  have hcardB : ((urefs adj root) \ (([] : List String)).toFinset).card
      < collectBound adj root := by
    rw [List.toFinset_nil, Finset.sdiff_empty]
    exact Nat.lt_succ_self _
  have heq := collectStep_fuel_congr adj (urefs adj root)
    (urefs_closed adj root) fuel (collectBound adj root) root ([], [])
    (root_mem_urefs adj root) hcard hcardB
  exact ⟨heq, congrArg Prod.fst heq⟩

/-- Witness for C2: the termination theorem applied to the cyclic example
adjacency at the concrete fuel 10. -/
theorem C2_witness :
    (urefs [("A", ["B", "C"]), ("B", ["C"]), ("C", ["A"])] "A").card < 10 ∧
    (collectStep 10 [("A", ["B", "C"]), ("B", ["C"]), ("C", ["A"])] "A" ([], [])).1 =
      collect_transitive_deps [("A", ["B", "C"]), ("B", ["C"]), ("C", ["A"])] "A" :=
  ⟨by decide, (C2_walk_terminates _ _ 10 (by decide)).2⟩

/-- C7: the failure isolation the spec requires holds on the
build-descriptor path (a section that fails to parse yields an empty
result, the externally supplied default is not even applied, and the
directory loop always completes) and on the XML SBOM path (a parse failure
yields the empty result non-fatally) — but NOT on the JSON SBOM path:
json.load runs outside any handler, so one malformed .json input aborts the
whole batch before any later input is processed. -/
theorem C7_json_parse_aborts_batch :
    processSbomBatch
      [SbomFileInput.jsonFile (Except.error ()),
       SbomFileInput.xmlFile (some { metaJava := some "17", components := [] })]
      = Except.error () ∧
    process_sbom_file_model (SbomFileInput.xmlFile none) = Except.ok (none, []) ∧
    extract_deps_from_xml_model none (some "11") = (none, []) ∧
    processPomBatch [[none]] none = [(none, [])] :=
  ⟨rfl, rfl, rfl, rfl⟩
